import Mathlib

/-!
# Verification of `ember-lifeline`'s debounce-task core

A shallow embedding of `src/addon/debounce-task.ts`: per-object debounced
task scheduling with lifecycle-tied cleanup.

Modelling choices, each traced to the source:

* JS objects (owners) are identified by `Nat`; an owner's observable state is
  its method table (`String → PropVal`) together with its `isDestroyed` flag.
* A task identity (`nameOrFunction`) is a string, a function value (functions
  are identified by `Nat`), or some other JS value (`other`) used only to
  model the first `assert`'s failure case.
* JS `Map`s and the `WeakMap` registry are association lists with `alookup`,
  `aset` (insert-or-overwrite-in-place, like `Map.set`) and `aerase`
  (like `Map.delete`).
* Closures created by `debounceTask` are given fresh ids from a counter; the
  data a closure captures (`obj`, `nameOrFunction`) is recorded in
  `World.closures`.  Reuse of the stored closure is therefore observable as
  reuse of its id.
* The external scheduler is `@ember/runloop`'s `debounce`/`cancel`:
  `debounce(target, method, ...args, wait)` coalesces per (target, method) —
  it replaces any pending timer for the same pair and returns a fresh handle —
  and `cancel(handle)` removes the timer with that handle, idempotently.
  Waits are opaque to the bookkeeping, so timers carry only target, method
  (closure id), and arguments; firing is an explicit `fireTimer` step.
* Ember's `assert` (debug builds) throws; the two argument asserts map to
  `invalidArgument` and the destroyed-owner assert to `invalidState`,
  following the spec's error taxonomy.
* The body of the coalesced callback executes `delete pendingDebounces[name]`.
  That is a JS property delete on the `Map` object (with the out-of-scope
  global `name`), not `Map.prototype.delete`, so it never removes a Map
  entry: the embedding's `runClosure` faithfully leaves the registry
  untouched before invoking the task.
-/

/-- A task identity: `nameOrFunction` in the source.  `other` stands for any
JS value that is neither a string nor a function. -/
inductive TaskIdentity where
  | name (s : String)
  | fn (f : Nat)
  | other (n : Nat)
deriving DecidableEq, Repr

/-- The value found at `obj[s]`: absent, a function, or a non-function. -/
inductive PropVal where
  | absentV
  | funcV (f : Nat)
  | nonFuncV
deriving DecidableEq, Repr

/-- Observable state of a JS owner object. -/
structure OwnerState where
  methods : List (String × PropVal)
  isDestroyed : Bool
deriving DecidableEq, Repr

/-- `{ debouncedTask, cancelId }` from the source: the stored coalesced
callback (by closure id) and the current timer handle. -/
structure PendingDebounce where
  debouncedTask : Nat
  cancelId : Nat
deriving DecidableEq, Repr

/-- Data captured by a coalesced callback when it is created. -/
structure ClosureData where
  owner : Nat
  task : TaskIdentity
deriving DecidableEq, Repr

/-- A pending timer of the runloop scheduler: handle, target object,
method (closure id), and the arguments to pass on firing. -/
structure Timer where
  id : Nat
  target : Nat
  closure : Nat
  args : List Nat
deriving DecidableEq, Repr

/-- An observable invocation performed by a fired coalesced callback. -/
inductive Invocation where
  | call (owner : Nat) (f : Nat) (args : List Nat)
  | callFailed (owner : Nat) (s : String)
deriving DecidableEq, Repr

/-- Errors raised synchronously by `debounceTask`'s asserts. -/
inductive LifelineError where
  | invalidArgument
  | invalidState
deriving DecidableEq, Repr

/-- Association-list lookup (first match), modelling `Map.get`. -/
def alookup {α β : Type} [DecidableEq α] (k : α) : List (α × β) → Option β
  | [] => none
  | (a, b) :: t => if a = k then some b else alookup k t

/-- Association-list insert-or-overwrite, modelling `Map.set` (an existing
key keeps its position; a new key is appended). -/
def aset {α β : Type} [DecidableEq α] (k : α) (v : β) : List (α × β) → List (α × β)
  | [] => [(k, v)]
  | (a, b) :: t => if a = k then (k, v) :: t else (a, b) :: aset k v t

/-- Association-list removal of the first entry for a key, modelling
`Map.delete`. -/
def aerase {α β : Type} [DecidableEq α] (k : α) : List (α × β) → List (α × β)
  | [] => []
  | (a, b) :: t => if a = k then t else (a, b) :: aerase k t

/-- The per-owner map: `PendingDebounces` in the source. -/
abbrev PendingDebounces := List (TaskIdentity × PendingDebounce)

/-- The whole observable state: owners, the `registeredDebounces` registry,
the runloop scheduler's timers, the closure table, the disposable
registrations (in order, with multiplicity), and the invocation log. -/
structure World where
  owners : List (Nat × OwnerState)
  registry : List (Nat × PendingDebounces)
  timers : List Timer
  nextTimer : Nat
  closures : List (Nat × ClosureData)
  nextClosure : Nat
  disposables : List Nat
  invocations : List Invocation
deriving DecidableEq, Repr

/-- The owner object behind an id; an id never seen before denotes a plain
object with no methods that is not destroyed. -/
def getOwner (w : World) (obj : Nat) : OwnerState :=
  (alookup obj w.owners).getD ⟨[], false⟩

/-- First assert: `typeof nameOrFunction === 'string' || typeof
nameOrFunction === 'function'`. -/
def identityOk : TaskIdentity → Bool
  | .name _ => true
  | .fn _ => true
  | .other _ => false

/-- Second assert: `typeof nameOrFunction === 'function' || typeof
obj[nameOrFunction] === 'function'`. -/
def memberCallable (o : OwnerState) : TaskIdentity → Bool
  | .fn _ => true
  | .name s =>
    match alookup s o.methods with
    | some (.funcV _) => true
    | _ => false
  | .other _ => false

/-- Registry access of `debounceTask`: return the owner's existing
`pendingDebounces` map, or create an empty one, store it, and register the
teardown disposable for the owner (lines 77–82 of the source). -/
def getOrCreateMap (obj : Nat) (w : World) : PendingDebounces × World :=
  match alookup obj w.registry with
  | some m => (m, w)
  | none =>
    ([], { w with
            registry := aset obj ([] : PendingDebounces) w.registry,
            disposables := w.disposables ++ [obj] })

/-- Pending-debounce lookup of `debounceTask`: reuse the stored coalesced
callback, or create a fresh closure capturing `(obj, nameOrFunction)`
(lines 84–99 of the source). -/
def getOrCreateClosure (obj : Nat) (t : TaskIdentity) (m : PendingDebounces)
    (w : World) : Nat × World :=
  match alookup t m with
  | some pd => (pd.debouncedTask, w)
  | none =>
    (w.nextClosure,
     { w with
        closures := aset w.nextClosure ⟨obj, t⟩ w.closures,
        nextClosure := w.nextClosure + 1 })

/-- `@ember/runloop`'s `debounce(target, method, ...args, wait)`: drop any
pending timer for the same (target, method) pair, schedule a fresh timer
with the new arguments, and return its fresh handle. -/
def emberDebounce (target method : Nat) (args : List Nat) (w : World) :
    Nat × World :=
  (w.nextTimer,
   { w with
      timers :=
        w.timers.filter (fun tm => !(tm.target == target && tm.closure == method))
          ++ [⟨w.nextTimer, target, method, args⟩],
      nextTimer := w.nextTimer + 1 })

/-- `@ember/runloop`'s `cancel(handle)`: remove the timer with that handle;
idempotent when the handle is absent or already fired. -/
def schedulerCancel (h : Nat) (w : World) : World :=
  { w with timers := w.timers.filter (fun tm => !(tm.id == h)) }

/-- `debounceTask(obj, nameOrFunction, ...debounceArgs)`: the three asserts,
then registry lookup/creation, closure reuse/creation, a fresh `debounce`
call, and the overwriting `pendingDebounces.set`. -/
def debounceTask (obj : Nat) (t : TaskIdentity) (args : List Nat)
    (w : World) : Except LifelineError World :=
  if !identityOk t then .error .invalidArgument
  else if !memberCallable (getOwner w obj) t then .error .invalidArgument
  else if (getOwner w obj).isDestroyed then .error .invalidState
  else
    let mw := getOrCreateMap obj w
    let cw := getOrCreateClosure obj t mw.1 mw.2
    let hw := emberDebounce obj cw.1 args cw.2
    .ok { hw.2 with
            registry := aset obj (aset t ⟨cw.1, hw.1⟩ mw.1) hw.2.registry }

/-- The body of the stored coalesced callback (`debouncedTask` in the
source), run with the scheduler-supplied arguments.  The source's
`delete pendingDebounces[name]` is a property delete on the Map object and
removes no Map entry, so the registry is left unchanged; then the task is
invoked — directly for a function identity, and through a fire-time read of
`obj[nameOrFunction]` for a string identity. -/
def runClosure (c : ClosureData) (args : List Nat) (w : World) : World :=
  match c.task with
  | .fn f => { w with invocations := w.invocations ++ [.call c.owner f args] }
  | .name s =>
    match alookup s (getOwner w c.owner).methods with
    | some (.funcV f) =>
      { w with invocations := w.invocations ++ [.call c.owner f args] }
    | _ => { w with invocations := w.invocations ++ [.callFailed c.owner s] }
  | .other _ => w

/-- The scheduler fires the timer with handle `h`: the timer is consumed and
its closure runs with the timer's arguments.  No-op for an unknown handle. -/
def fireTimer (h : Nat) (w : World) : World :=
  match w.timers.find? (fun tm => tm.id == h) with
  | none => w
  | some tm =>
    let w₁ := { w with timers := w.timers.filter (fun x => !(x.id == h)) }
    match alookup tm.closure w₁.closures with
    | none => w₁
    | some c => runClosure c tm.args w₁

/-- First half of `cancelDebounce`: the guard (`pendingDebounces` absent or
key missing → `none`), the `cancelId` read, and the `pendingDebounces.delete`
that the source performs before calling `cancel`. -/
def cancelDeletePhase (obj : Nat) (t : TaskIdentity) (w : World) :
    Option (Nat × World) :=
  match alookup obj w.registry with
  | none => none
  | some m =>
    match alookup t m with
    | none => none
    | some pd =>
      some (pd.cancelId, { w with registry := aset obj (aerase t m) w.registry })

/-- `cancelDebounce(obj, nameOrFunction)`: early return when nothing is
pending; otherwise delete the map entry, then cancel the stored handle. -/
def cancelDebounce (obj : Nat) (t : TaskIdentity) (w : World) : World :=
  match cancelDeletePhase obj t w with
  | none => w
  | some (cid, w₁) => schedulerCancel cid w₁

/-- The disposable produced by `getDebouncesDisposable`, invoked at owner
teardown: cancel the `cancelId` of every entry currently in the owner's
`pendingDebounces` map (which the closure captured; the registry never
replaces it, so reading the registry's current map is equivalent). -/
def runTeardown (obj : Nat) (w : World) : World :=
  match alookup obj w.registry with
  | none => w
  | some m =>
    (m.map (fun e => e.2.cancelId)).foldl (fun acc cid => schedulerCancel cid acc) w

/-- The timers remaining after cancelling every handle stored in a
per-owner map: used to state the teardown disposable's effect. -/
def cancelTimersOf (m : PendingDebounces) (ts : List Timer) : List Timer :=
  ts.filter (fun tm => !((m.map (fun e => e.2.cancelId)).contains tm.id))

/-- External JS mutation `obj[s] = v`, used to observe late-bound method
dispatch. -/
def setOwnerMethod (obj : Nat) (s : String) (v : PropVal) (w : World) : World :=
  { w with
     owners := aset obj { getOwner w obj with methods := aset s v (getOwner w obj).methods } w.owners }

/-- The operations that touch the registry, for invariant statements. -/
inductive Op where
  | schedule (obj : Nat) (t : TaskIdentity) (args : List Nat)
  | cancelOp (obj : Nat) (t : TaskIdentity)
  | fire (h : Nat)
  | teardown (obj : Nat)
deriving DecidableEq, Repr

/-- One operation step; a `debounceTask` that raises leaves the state
unchanged (the asserts precede every mutation in the source). -/
def applyOp (w : World) : Op → World
  | .schedule obj t args =>
    match debounceTask obj t args w with
    | .ok w' => w'
    | .error _ => w
  | .cancelOp obj t => cancelDebounce obj t w
  | .fire h => fireTimer h w
  | .teardown obj => runTeardown obj w

/-- Run a sequence of operations. -/
def run (ops : List Op) (w : World) : World :=
  ops.foldl applyOp w

/-- A convenient initial world: one owner (id 0) with a callable method
`"logMe"` (function id 5), empty registry and scheduler. -/
def init : World :=
  { owners := [(0, ⟨[("logMe", .funcV 5)], false⟩)],
    registry := [],
    timers := [],
    nextTimer := 0,
    closures := [],
    nextClosure := 0,
    disposables := [],
    invocations := [] }

/-- The world after `debounceTask 0 (.fn 7) [1]` from `init`: one pending
debounce for (owner 0, function 7), one live timer with handle 0. -/
def wPending : World :=
  { owners := [(0, ⟨[("logMe", .funcV 5)], false⟩)],
    registry := [(0, [(.fn 7, ⟨0, 0⟩)])],
    timers := [⟨0, 0, 0, [1]⟩],
    nextTimer := 1,
    closures := [(0, ⟨0, .fn 7⟩)],
    nextClosure := 1,
    disposables := [0],
    invocations := [] }

/-- `init` with owner 0 already destroyed. -/
def initDestroyed : World :=
  { init with owners := [(0, ⟨[("logMe", .funcV 5)], true⟩)] }

/-- The task identity `t` resolves, on owner `obj` in world `w`, to the
function `g`: directly for a function value, through the owner's method
table for a string name. -/
def resolvesTo (w : World) (obj : Nat) (t : TaskIdentity) (g : Nat) : Prop :=
  match t with
  | .fn f => f = g
  | .name s => alookup s (getOwner w obj).methods = some (.funcV g)
  | .other _ => False

instance (w : World) (obj : Nat) (t : TaskIdentity) (g : Nat) :
    Decidable (resolvesTo w obj t g) := by
  unfold resolvesTo
  cases t <;> infer_instance

/-- The shape of the state reached from `init` after one or more schedules
of task `t` for owner 0, the latest with handle `k` and arguments `a`. -/
def midState (t : TaskIdentity) (k : Nat) (a : List Nat) : World :=
  { owners := [(0, ⟨[("logMe", .funcV 5)], false⟩)],
    registry := [(0, [(t, ⟨0, k⟩)])],
    timers := [⟨k, 0, 0, a⟩],
    nextTimer := k + 1,
    closures := [(0, ⟨0, t⟩)],
    nextClosure := 1,
    disposables := [0],
    invocations := [] }

/-- Uniqueness invariant: the registry's owner keys are pairwise distinct
and so are the task-identity keys of every per-owner map, so at most one
pending debounce exists per (owner, task identity) pair. -/
def keysUnique (w : World) : Prop :=
  (w.registry.map (·.1)).Nodup ∧ ∀ e ∈ w.registry, ((e.2.map (·.1)).Nodup)

instance (w : World) : Decidable (keysUnique w) := by
  unfold keysUnique
  infer_instance

/-- Registration invariant: each owner appears at most once in the
disposable-registration log, owners are registered exactly when their
per-owner map exists. -/
def dispOnce (w : World) : Prop :=
  w.disposables.Nodup ∧
  (∀ obj ∈ w.disposables, (alookup obj w.registry).isSome = true) ∧
  (∀ e ∈ w.registry, e.1 ∈ w.disposables)

instance (w : World) : Decidable (dispOnce w) := by
  unfold dispOnce
  infer_instance

/-! ## Association-list lemmas -/

section AListLemmas

variable {α β : Type} [DecidableEq α]

theorem alookup_aset_self (k : α) (v : β) (l : List (α × β)) :
    alookup k (aset k v l) = some v := by
  induction l with
  | nil => simp [aset, alookup]
  | cons e t ih =>
    by_cases h : e.1 = k <;> simp [aset, alookup, h, ih]

theorem alookup_aset_ne {k k' : α} (h : k' ≠ k) (v : β) (l : List (α × β)) :
    alookup k' (aset k v l) = alookup k' l := by
  have hk : k ≠ k' := Ne.symm h
  induction l with
  | nil => simp [aset, alookup, hk]
  | cons e t ih =>
    by_cases he : e.1 = k
    · simp [aset, alookup, he, hk]
    · by_cases he' : e.1 = k' <;> simp [aset, alookup, he, he', ih, h, hk]

theorem alookup_eq_none_iff (k : α) (l : List (α × β)) :
    alookup k l = none ↔ k ∉ l.map (·.1) := by
  induction l with
  | nil => simp [alookup]
  | cons e t ih =>
    by_cases h : e.1 = k
    · subst h
      simp [alookup]
    · simp [alookup, h, Ne.symm h, ih]

theorem alookup_mem {k : α} {v : β} {l : List (α × β)}
    (h : alookup k l = some v) : (k, v) ∈ l := by
  induction l with
  | nil => simp [alookup] at h
  | cons e t ih =>
    by_cases he : e.1 = k
    · simp [alookup, he] at h
      subst he h
      simp
    · simp [alookup, he] at h
      exact List.mem_cons_of_mem _ (ih h)

theorem aset_map_fst_of_some {k : α} {v₀ : β} {l : List (α × β)}
    (h : alookup k l = some v₀) (v : β) :
    (aset k v l).map (·.1) = l.map (·.1) := by
  induction l with
  | nil => simp [alookup] at h
  | cons e t ih =>
    by_cases he : e.1 = k
    · simp [aset, he]
    · simp [alookup, he] at h
      simp [aset, he, ih h]

theorem aset_map_fst_of_none {k : α} {l : List (α × β)}
    (h : alookup k l = none) (v : β) :
    (aset k v l).map (·.1) = l.map (·.1) ++ [k] := by
  induction l with
  | nil => simp [aset]
  | cons e t ih =>
    by_cases he : e.1 = k
    · simp [alookup, he] at h
    · simp [alookup, he] at h
      simp [aset, he, ih h]

theorem aset_keys_nodup {k : α} {v : β} {l : List (α × β)}
    (h : (l.map (·.1)).Nodup) : ((aset k v l).map (·.1)).Nodup := by
  cases hk : alookup k l with
  | some v₀ => rw [aset_map_fst_of_some hk]; exact h
  | none =>
    rw [aset_map_fst_of_none hk]
    have hnot : k ∉ l.map (·.1) := (alookup_eq_none_iff k l).1 hk
    simp [List.nodup_append, h, hnot]

theorem aerase_map_fst_sublist (k : α) (l : List (α × β)) :
    ((aerase k l).map (·.1)).Sublist (l.map (·.1)) := by
  induction l with
  | nil => simp [aerase]
  | cons e t ih =>
    by_cases he : e.1 = k
    · simp [aerase, he]
    · simp only [aerase, he, if_false, List.map_cons, List.cons_sublist_cons]
      exact ih

theorem aerase_keys_nodup {k : α} {l : List (α × β)}
    (h : (l.map (·.1)).Nodup) : ((aerase k l).map (·.1)).Nodup :=
  (aerase_map_fst_sublist k l).nodup h

theorem alookup_aerase_self {k : α} {l : List (α × β)}
    (h : (l.map (·.1)).Nodup) : alookup k (aerase k l) = none := by
  induction l with
  | nil => simp [aerase, alookup]
  | cons e t ih =>
    rw [List.map_cons, List.nodup_cons] at h
    by_cases he : e.1 = k
    · subst he
      simp only [aerase, if_pos rfl]
      exact (alookup_eq_none_iff _ _).2 h.1
    · simp [aerase, alookup, he, ih h.2]

theorem alookup_aerase_ne {k k' : α} (h : k' ≠ k) (l : List (α × β)) :
    alookup k' (aerase k l) = alookup k' l := by
  have hk : k ≠ k' := Ne.symm h
  induction l with
  | nil => simp [aerase]
  | cons e t ih =>
    by_cases he : e.1 = k
    · simp [aerase, alookup, he, hk]
    · by_cases he' : e.1 = k' <;> simp [aerase, alookup, he, he', ih, h, hk]

theorem mem_aset {e : α × β} {k : α} {v : β} {l : List (α × β)}
    (h : e ∈ aset k v l) : e = (k, v) ∨ e ∈ l := by
  induction l with
  | nil => simpa [aset] using h
  | cons e' t ih =>
    by_cases he : e'.1 = k
    · simp [aset, he] at h
      rcases h with h | h
      · exact Or.inl h
      · exact Or.inr (List.mem_cons_of_mem _ h)
    · simp [aset, he] at h
      rcases h with h | h
      · exact Or.inr (by simp [h])
      · rcases ih h with h' | h'
        · exact Or.inl h'
        · exact Or.inr (List.mem_cons_of_mem _ h')

theorem mem_aerase {e : α × β} {k : α} {l : List (α × β)}
    (h : e ∈ aerase k l) : e ∈ l := by
  induction l with
  | nil => simp [aerase] at h
  | cons e' t ih =>
    by_cases he : e'.1 = k
    · simp [aerase, he] at h
      exact List.mem_cons_of_mem _ h
    · simp [aerase, he] at h
      rcases h with h | h
      · simp [h]
      · exact List.mem_cons_of_mem _ (ih h)

theorem alookup_isSome_aset (k k' : α) (v : β) (l : List (α × β)) :
    (alookup k' (aset k v l)).isSome = true ↔
      k' = k ∨ (alookup k' l).isSome = true := by
  by_cases h : k' = k
  · subst h
    simp [alookup_aset_self]
  · simp [alookup_aset_ne h, h]

end AListLemmas

/-! ## Characterization lemmas for the operations -/

theorem getOrCreateMap_some {obj : Nat} {w : World} {m : PendingDebounces}
    (h : alookup obj w.registry = some m) : getOrCreateMap obj w = (m, w) := by
  simp [getOrCreateMap, h]

theorem getOrCreateMap_none {obj : Nat} {w : World}
    (h : alookup obj w.registry = none) :
    getOrCreateMap obj w =
      ([], { w with
              registry := aset obj ([] : PendingDebounces) w.registry,
              disposables := w.disposables ++ [obj] }) := by
  simp [getOrCreateMap, h]

theorem getOrCreateClosure_some {obj : Nat} {t : TaskIdentity}
    {m : PendingDebounces} {w : World} {pd : PendingDebounce}
    (h : alookup t m = some pd) :
    getOrCreateClosure obj t m w = (pd.debouncedTask, w) := by
  simp [getOrCreateClosure, h]

theorem getOrCreateClosure_none {obj : Nat} {t : TaskIdentity}
    {m : PendingDebounces} {w : World}
    (h : alookup t m = none) :
    getOrCreateClosure obj t m w =
      (w.nextClosure,
       { w with
          closures := aset w.nextClosure ⟨obj, t⟩ w.closures,
          nextClosure := w.nextClosure + 1 }) := by
  simp [getOrCreateClosure, h]

theorem debounceTask_eq_ok {obj : Nat} {t : TaskIdentity} {args : List Nat}
    {w : World}
    (h1 : identityOk t = true)
    (h2 : memberCallable (getOwner w obj) t = true)
    (h3 : (getOwner w obj).isDestroyed = false) :
    debounceTask obj t args w =
      .ok (let mw := getOrCreateMap obj w
           let cw := getOrCreateClosure obj t mw.1 mw.2
           let hw := emberDebounce obj cw.1 args cw.2
           { hw.2 with
              registry := aset obj (aset t ⟨cw.1, hw.1⟩ mw.1) hw.2.registry }) := by
  simp [debounceTask, h1, h2, h3]

theorem debounceTask_ok_conditions {obj : Nat} {t : TaskIdentity}
    {args : List Nat} {w w' : World}
    (h : debounceTask obj t args w = .ok w') :
    identityOk t = true ∧ memberCallable (getOwner w obj) t = true ∧
      (getOwner w obj).isDestroyed = false := by
  by_cases h1 : identityOk t
  · by_cases h2 : memberCallable (getOwner w obj) t
    · by_cases h3 : (getOwner w obj).isDestroyed
      · simp [debounceTask, h1, h2, h3] at h
      · exact ⟨h1, h2, by simpa using h3⟩
    · simp [debounceTask, h1, h2] at h
  · simp [debounceTask, h1] at h

/-! ## Claim theorems -/

/-- C4: for every owner and task identity, if no per-owner map exists or the
map has no pending debounce for that identity, `cancelDebounce` returns
leaving the whole state unchanged (idempotent no-op, never fails). -/
theorem cancelDebounce_absent_noop (w : World) (obj : Nat) (t : TaskIdentity)
    (h : alookup obj w.registry = none ∨
         ∃ m, alookup obj w.registry = some m ∧ alookup t m = none) :
    cancelDebounce obj t w = w := by
  rcases h with h | ⟨m, hm, ht⟩
  · simp [cancelDebounce, cancelDeletePhase, h]
  · simp [cancelDebounce, cancelDeletePhase, hm, ht]

/-- Witness for C4: cancelling on `init` (no per-owner map) and on `wPending`
for an identity with no pending debounce both leave the state unchanged. -/
theorem cancelDebounce_absent_noop_witness :
    cancelDebounce 0 (.name "logMe") init = init ∧
      cancelDebounce 0 (.fn 9) wPending = wPending :=
  ⟨cancelDebounce_absent_noop init 0 (.name "logMe") (Or.inl (by decide)),
   cancelDebounce_absent_noop wPending 0 (.fn 9)
     (Or.inr ⟨[(.fn 7, ⟨0, 0⟩)], by decide, by decide⟩)⟩

/-- C5: a malformed task identity, a string identity not naming a callable
member, or a destroyed owner makes `debounceTask` raise synchronously
(`invalidArgument` / `invalidArgument` / `invalidState`) with the entire
state unchanged: no per-owner map created, no entry written, no disposable
registered, no timer requested. -/
theorem debounceTask_error_aborts (w : World) (obj : Nat) (t : TaskIdentity)
    (args : List Nat) :
    (identityOk t = false →
      debounceTask obj t args w = .error .invalidArgument ∧
      applyOp w (.schedule obj t args) = w) ∧
    (identityOk t = true → memberCallable (getOwner w obj) t = false →
      debounceTask obj t args w = .error .invalidArgument ∧
      applyOp w (.schedule obj t args) = w) ∧
    (identityOk t = true → memberCallable (getOwner w obj) t = true →
      (getOwner w obj).isDestroyed = true →
      debounceTask obj t args w = .error .invalidState ∧
      applyOp w (.schedule obj t args) = w) := by
  refine ⟨fun h1 => ?_, fun h1 h2 => ?_, fun h1 h2 h3 => ?_⟩
  · constructor <;> simp [applyOp, debounceTask, h1]
  · constructor <;> simp [applyOp, debounceTask, h1, h2]
  · constructor <;> simp [applyOp, debounceTask, h1, h2, h3]

/-- Witness for C5: a non-string non-function identity, the name of an
absent member, and a destroyed owner each abort with the stated error and
leave `init` (resp. `initDestroyed`) unchanged. -/
theorem debounceTask_error_aborts_witness :
    (debounceTask 0 (.other 1) [] init = .error .invalidArgument ∧
      applyOp init (.schedule 0 (.other 1) []) = init) ∧
    (debounceTask 0 (.name "nope") [] init = .error .invalidArgument ∧
      applyOp init (.schedule 0 (.name "nope") []) = init) ∧
    (debounceTask 0 (.name "logMe") [] initDestroyed = .error .invalidState ∧
      applyOp initDestroyed (.schedule 0 (.name "logMe") []) = initDestroyed) :=
  ⟨(debounceTask_error_aborts init 0 (.other 1) []).1 (by decide),
   (debounceTask_error_aborts init 0 (.name "nope") []).2.1 (by decide) (by decide),
   (debounceTask_error_aborts initDestroyed 0 (.name "logMe") []).2.2
     (by decide) (by decide) (by decide)⟩

/-- C10: with a pending debounce, `cancelDebounce` removes the map entry
strictly before the scheduler cancel runs: the delete phase yields the
stored handle together with a state whose registry already lacks the entry,
the whole operation is scheduler-cancel applied after that phase, and
scheduler cancel never touches the registry. -/
theorem cancelDebounce_deletes_before_cancel (w : World) (obj : Nat)
    (t : TaskIdentity) (m : PendingDebounces) (pd : PendingDebounce)
    (hm : alookup obj w.registry = some m) (ht : alookup t m = some pd)
    (hnd : (m.map (·.1)).Nodup) :
    cancelDeletePhase obj t w =
        some (pd.cancelId, { w with registry := aset obj (aerase t m) w.registry }) ∧
    alookup t ((alookup obj
        ({ w with registry := aset obj (aerase t m) w.registry }).registry).getD [])
      = none ∧
    cancelDebounce obj t w =
        schedulerCancel pd.cancelId
          { w with registry := aset obj (aerase t m) w.registry } ∧
    (∀ (cid : Nat) (w' : World), (schedulerCancel cid w').registry = w'.registry) := by
  refine ⟨by simp [cancelDeletePhase, hm, ht], ?_, ?_, fun cid w' => rfl⟩
  · simp [alookup_aset_self, alookup_aerase_self hnd]
  · simp [cancelDebounce, cancelDeletePhase, hm, ht]

/-- Witness for C10: the delete phase on `wPending` removes the entry and
hands handle 0 to the subsequent scheduler cancel. -/
theorem cancelDebounce_deletes_before_cancel_witness :
    cancelDeletePhase 0 (.fn 7) wPending =
        some (0, { wPending with
                    registry := aset 0 (aerase (.fn 7) [(.fn 7, ⟨0, 0⟩)]) wPending.registry }) ∧
    alookup (.fn 7) ((alookup 0
        ({ wPending with
            registry := aset 0 (aerase (.fn 7) [(.fn 7, ⟨0, 0⟩)]) wPending.registry }).registry).getD [])
      = none ∧
    cancelDebounce 0 (.fn 7) wPending =
        schedulerCancel 0
          { wPending with
             registry := aset 0 (aerase (.fn 7) [(.fn 7, ⟨0, 0⟩)]) wPending.registry } ∧
    (∀ (cid : Nat) (w' : World), (schedulerCancel cid w').registry = w'.registry) :=
  cancelDebounce_deletes_before_cancel wPending 0 (.fn 7) [(.fn 7, ⟨0, 0⟩)] ⟨0, 0⟩
    (by decide) (by decide) (by decide)

/-- C3: with a pending debounce, `cancelDebounce` removes the entry from the
per-owner map and asks the scheduler to cancel the stored handle; a
subsequent successful `debounceTask` for the same pair then stores a fully
new coalesced callback (the fresh closure-counter value, distinct from the
old one) and a fresh timer handle. -/
theorem cancelDebounce_pending (w : World) (obj : Nat) (t : TaskIdentity)
    (m : PendingDebounces) (pd : PendingDebounce)
    (hm : alookup obj w.registry = some m) (ht : alookup t m = some pd)
    (hnd : (m.map (·.1)).Nodup)
    (hfresh : pd.debouncedTask < w.nextClosure) :
    alookup obj (cancelDebounce obj t w).registry = some (aerase t m) ∧
    alookup t (aerase t m) = none ∧
    (cancelDebounce obj t w).timers =
      w.timers.filter (fun x => !(x.id == pd.cancelId)) ∧
    (cancelDebounce obj t w).nextClosure = w.nextClosure ∧
    (cancelDebounce obj t w).nextTimer = w.nextTimer ∧
    (∀ args w'', debounceTask obj t args (cancelDebounce obj t w) = .ok w'' →
      ∃ pd', alookup t ((alookup obj w''.registry).getD []) = some pd' ∧
        pd'.debouncedTask = w.nextClosure ∧
        pd'.debouncedTask ≠ pd.debouncedTask ∧
        pd'.cancelId = w.nextTimer ∧
        w''.nextClosure = w.nextClosure + 1) := by
  have hcd : cancelDebounce obj t w =
      schedulerCancel pd.cancelId
        { w with registry := aset obj (aerase t m) w.registry } := by
    simp [cancelDebounce, cancelDeletePhase, hm, ht]
  have hreg : alookup obj (cancelDebounce obj t w).registry = some (aerase t m) := by
    rw [hcd]
    simp [schedulerCancel, alookup_aset_self]
  have hnone : alookup t (aerase t m) = none := alookup_aerase_self hnd
  refine ⟨hreg, hnone, by rw [hcd]; rfl, by rw [hcd]; rfl, by rw [hcd]; rfl, ?_⟩
  intro args w'' hok
  obtain ⟨h1, h2, h3⟩ := debounceTask_ok_conditions hok
  rw [debounceTask_eq_ok h1 h2 h3] at hok
  simp only [getOrCreateMap_some hreg, getOrCreateClosure_none hnone, emberDebounce,
    Except.ok.injEq] at hok
  have hnc : (cancelDebounce obj t w).nextClosure = w.nextClosure := by rw [hcd]; rfl
  have hnt : (cancelDebounce obj t w).nextTimer = w.nextTimer := by rw [hcd]; rfl
  refine ⟨⟨(cancelDebounce obj t w).nextClosure, (cancelDebounce obj t w).nextTimer⟩,
    ?_, hnc, ?_, hnt, ?_⟩
  · rw [← hok]
    simp [alookup_aset_self]
  · rw [hnc]
    exact fun h => absurd h.symm (Nat.ne_of_lt hfresh)
  · rw [← hok]
    simp [hnc]

/-- Witness for C3: cancelling the pending debounce of `wPending` removes
the entry and cancels handle 0, and the follow-up schedule creates closure 1
and handle 1. -/
theorem cancelDebounce_pending_witness :
    alookup 0 (cancelDebounce 0 (.fn 7) wPending).registry =
      some (aerase (TaskIdentity.fn 7)
        ([(TaskIdentity.fn 7, ⟨0, 0⟩)] : PendingDebounces)) ∧
    alookup (TaskIdentity.fn 7)
      (aerase (TaskIdentity.fn 7)
        ([(TaskIdentity.fn 7, ⟨0, 0⟩)] : PendingDebounces)) = none ∧
    (cancelDebounce 0 (.fn 7) wPending).timers =
      wPending.timers.filter (fun x => !(x.id == 0)) ∧
    (cancelDebounce 0 (.fn 7) wPending).nextClosure = wPending.nextClosure ∧
    (cancelDebounce 0 (.fn 7) wPending).nextTimer = wPending.nextTimer ∧
    (∀ args w'',
      debounceTask 0 (.fn 7) args (cancelDebounce 0 (.fn 7) wPending) = .ok w'' →
      ∃ pd', alookup (.fn 7) ((alookup 0 w''.registry).getD []) = some pd' ∧
        pd'.debouncedTask = wPending.nextClosure ∧
        pd'.debouncedTask ≠ 0 ∧
        pd'.cancelId = wPending.nextTimer ∧
        w''.nextClosure = wPending.nextClosure + 1) :=
  cancelDebounce_pending wPending 0 (.fn 7) [(.fn 7, ⟨0, 0⟩)] ⟨0, 0⟩
    (by decide) (by decide) (by decide) (by decide)

/-- Folding scheduler cancellation over a list of handles filters out every
timer whose handle is in the list. -/
theorem foldl_schedulerCancel (ids : List Nat) (w : World) :
    ids.foldl (fun acc cid => schedulerCancel cid acc) w =
      { w with timers := w.timers.filter (fun tm => !(ids.contains tm.id)) } := by
  induction ids generalizing w with
  | nil => simp
  | cons c rest ih =>
    rw [List.foldl_cons, ih]
    simp only [schedulerCancel]
    congr 1
    rw [List.filter_filter]
    apply List.filter_congr
    intro tm _
    by_cases hc : tm.id = c
    · simp [hc]
    · simp [hc, fun h : c = tm.id => hc h.symm]

/-- C6: the owner-teardown disposable cancels, via the scheduler, the timer
handle of every entry currently in the owner's per-owner map — its whole
effect is dropping exactly those timers — and it is a harmless no-op when
the owner has no map or the map is empty. -/
theorem runTeardown_cancels_all (w : World) (obj : Nat) :
    (alookup obj w.registry = none → runTeardown obj w = w) ∧
    (∀ m, alookup obj w.registry = some m →
      runTeardown obj w = { w with timers := cancelTimersOf m w.timers } ∧
      (∀ e ∈ m,
        (runTeardown obj w).timers.find? (fun tm => tm.id == e.2.cancelId) = none) ∧
      (m = [] → runTeardown obj w = w)) := by
  constructor
  · intro h
    simp [runTeardown, h]
  · intro m hm
    have heq : runTeardown obj w = { w with timers := cancelTimersOf m w.timers } := by
      simp [runTeardown, hm, foldl_schedulerCancel, cancelTimersOf]
    refine ⟨heq, ?_, ?_⟩
    · intro e he
      rw [heq]
      show (cancelTimersOf m w.timers).find? (fun tm => tm.id == e.2.cancelId) = none
      rw [cancelTimersOf, List.find?_eq_none]
      intro tm htm
      rw [List.mem_filter] at htm
      intro hid
      have hin : (m.map (fun e => e.2.cancelId)).contains tm.id = true := by
        rw [List.contains_iff_exists_mem_beq]
        exact ⟨e.2.cancelId, List.mem_map.2 ⟨e, he, rfl⟩, hid⟩
      rw [hin] at htm
      simp at htm
    · intro h
      subst h
      rw [heq]
      simp [cancelTimersOf]

/-- Witness for C6: on `wPending`, teardown of owner 0 cancels the single
pending timer (handle 0); teardown of an owner with no map (owner 1) is a
no-op. -/
theorem runTeardown_cancels_all_witness :
    runTeardown 1 wPending = wPending ∧
    runTeardown 0 wPending =
      { wPending with timers :=
          cancelTimersOf [(TaskIdentity.fn 7, ⟨0, 0⟩)] wPending.timers } ∧
    (∀ e ∈ ([(TaskIdentity.fn 7, ⟨0, 0⟩)] : PendingDebounces),
      (runTeardown 0 wPending).timers.find? (fun tm => tm.id == e.2.cancelId) = none) :=
  ⟨(runTeardown_cancels_all wPending 1).1 (by decide),
   ((runTeardown_cancels_all wPending 0).2 [(TaskIdentity.fn 7, ⟨0, 0⟩)] (by decide)).1,
   ((runTeardown_cancels_all wPending 0).2 [(TaskIdentity.fn 7, ⟨0, 0⟩)] (by decide)).2.1⟩

/-- C1 evidence: from `init`, schedule function 7 once and let the timer
fire.  The task is invoked with the scheduler-supplied arguments, but the
entry keyed by the task identity is still present in the per-owner map —
the source's `delete pendingDebounces[name]` is a property delete, not
`Map.delete` — and a subsequent schedule for the same pair consequently
reuses the stale coalesced callback (no fresh closure) instead of starting
fresh. -/
theorem fired_callback_leaves_entry :
    (fireTimer 0 (applyOp init (.schedule 0 (.fn 7) [1]))).invocations =
      [.call 0 7 [1]] ∧
    alookup (TaskIdentity.fn 7)
      ((alookup 0
        (fireTimer 0 (applyOp init (.schedule 0 (.fn 7) [1]))).registry).getD [])
      = some ⟨0, 0⟩ ∧
    (debounceTask 0 (.fn 7) [2]
        (fireTimer 0 (applyOp init (.schedule 0 (.fn 7) [1])))).toOption.map
      (fun w => w.nextClosure) = some 1 := by
  decide

/-- C9: a coalesced callback created for a string identity resolves the
member at fire time: firing a timer whose closure captured `(owner, name s)`
invokes whatever function sits at `owner[s]` in the world at the moment of
firing, appended to the invocation log with the timer's arguments. -/
theorem stringTask_resolved_at_fire_time (w : World) (h : Nat) (tm : Timer)
    (co : Nat) (s : String) (g : Nat)
    (hfind : w.timers.find? (fun x => x.id == h) = some tm)
    (hc : alookup tm.closure w.closures = some ⟨co, .name s⟩)
    (hmeth : alookup s (getOwner w co).methods = some (.funcV g)) :
    (fireTimer h w).invocations = w.invocations ++ [.call co g tm.args] := by
  simp only [getOwner] at hmeth
  simp [fireTimer, hfind, hc, runClosure, getOwner, hmeth]

/-- Witness for C9: schedule `"logMe"` (then bound to function 5), reassign
`owner["logMe"]` to function 9 before the timer fires, fire: function 9 is
invoked with the scheduled arguments, not function 5. -/
theorem stringTask_resolved_at_fire_time_witness :
    (fireTimer 0 (setOwnerMethod 0 "logMe" (.funcV 9)
        (applyOp init (.schedule 0 (.name "logMe") [3])))).invocations =
      (setOwnerMethod 0 "logMe" (.funcV 9)
        (applyOp init (.schedule 0 (.name "logMe") [3]))).invocations ++
        [.call 0 9 [3]] :=
  stringTask_resolved_at_fire_time
    (setOwnerMethod 0 "logMe" (.funcV 9)
      (applyOp init (.schedule 0 (.name "logMe") [3])))
    0 ⟨0, 0, 0, [3]⟩ 0 "logMe" 9 (by decide) (by decide) (by decide)

/-- Overwriting the same key twice collapses to the last write. -/
theorem aset_aset {α β : Type} [DecidableEq α] (k : α) (v v' : β)
    (l : List (α × β)) : aset k v (aset k v' l) = aset k v l := by
  induction l with
  | nil => simp [aset]
  | cons e t ih =>
    by_cases he : e.1 = k
    · simp [aset, he]
    · simp [aset, he, ih]

theorem resolvesTo_identityOk {w : World} {obj : Nat} {t : TaskIdentity}
    {g : Nat} (h : resolvesTo w obj t g) : identityOk t = true := by
  cases t <;> simp_all [resolvesTo, identityOk]

theorem resolvesTo_memberCallable {w : World} {obj : Nat} {t : TaskIdentity}
    {g : Nat} (h : resolvesTo w obj t g) :
    memberCallable (getOwner w obj) t = true := by
  cases t <;> simp_all [resolvesTo, memberCallable]

theorem resolvesTo_of_owners_eq {w w' : World} {obj : Nat} {t : TaskIdentity}
    {g : Nat} (how : w'.owners = w.owners) (h : resolvesTo w obj t g) :
    resolvesTo w' obj t g := by
  cases t <;> simp_all [resolvesTo, getOwner]

/-- The first schedule of task `t` from `init` reaches `midState t 0 a`. -/
theorem schedule_from_init (t : TaskIdentity) (g : Nat) (a : List Nat)
    (hres : resolvesTo init 0 t g) :
    debounceTask 0 t a init = .ok (midState t 0 a) := by
  rw [debounceTask_eq_ok (resolvesTo_identityOk hres)
    (resolvesTo_memberCallable hres) rfl]
  rfl

/-- Rescheduling task `t` from `midState t k b` reuses closure 0 and moves
to `midState t (k+1) a`. -/
theorem schedule_from_midState (t : TaskIdentity) (g k : Nat) (b a : List Nat)
    (hres : resolvesTo init 0 t g) :
    debounceTask 0 t a (midState t k b) = .ok (midState t (k + 1) a) := by
  have h2 : memberCallable (getOwner (midState t k b) 0) t = true :=
    resolvesTo_memberCallable (resolvesTo_of_owners_eq rfl hres)
  rw [debounceTask_eq_ok (resolvesTo_identityOk hres) h2 rfl]
  simp only [getOrCreateMap_some
      (show alookup 0 (midState t k b).registry = some [(t, ⟨0, k⟩)] from rfl),
    getOrCreateClosure_some
      (show alookup t [(t, (⟨0, k⟩ : PendingDebounce))] = some ⟨0, k⟩ by
        simp [alookup])]
  simp [emberDebounce, midState, aset]

/-- Iterating schedules of `t` from a `midState` stays in `midState`,
advancing the handle and keeping the arguments of the latest call. -/
theorem run_schedules_from_midState (t : TaskIdentity) (g : Nat)
    (hres : resolvesTo init 0 t g) (rest : List (List Nat)) :
    ∀ (k : Nat) (b : List Nat),
      run (rest.map (Op.schedule 0 t)) (midState t k b) =
        midState t (k + rest.length) (rest.getLastD b) := by
  induction rest with
  | nil =>
    intro k b
    simp [run]
  | cons a rs ih =>
    intro k b
    have hstep : applyOp (midState t k b) (Op.schedule 0 t a) = midState t (k + 1) a := by
      simp [applyOp, schedule_from_midState t g k b a hres]
    calc run ((a :: rs).map (Op.schedule 0 t)) (midState t k b)
        = run (rs.map (Op.schedule 0 t)) (applyOp (midState t k b) (Op.schedule 0 t a)) := rfl
      _ = run (rs.map (Op.schedule 0 t)) (midState t (k + 1) a) := by rw [hstep]
      _ = midState t ((k + 1) + rs.length) (rs.getLastD a) := ih (k + 1) a
      _ = midState t (k + (a :: rs).length) ((a :: rs).getLastD b) := by
          rw [List.getLastD_cons, List.length_cons]
          congr 1
          omega

/-- Running a coalesced callback that resolves to `g` appends exactly the
one invocation of `g`. -/
theorem runClosure_resolved (c : ClosureData) (args : List Nat) (w : World)
    (g : Nat) (hres : resolvesTo w c.owner c.task g) :
    runClosure c args w =
      { w with invocations := w.invocations ++ [.call c.owner g args] } := by
  rcases c with ⟨co, ct⟩
  cases ct with
  | name s =>
    have hm : alookup s (getOwner w co).methods = some (.funcV g) := hres
    simp [runClosure, hm]
  | fn f =>
    have hf : f = g := hres
    subst hf
    rfl
  | other n => exact absurd hres (by simp [resolvesTo])

/-- Firing a live timer consumes it and appends one invocation of the
function its closure resolves to at fire time. -/
theorem fireTimer_resolved (w : World) (h : Nat) (tm : Timer)
    (c : ClosureData) (g : Nat)
    (hfind : w.timers.find? (fun x => x.id == h) = some tm)
    (hc : alookup tm.closure w.closures = some c)
    (hres : resolvesTo w c.owner c.task g) :
    fireTimer h w =
      { w with
         timers := w.timers.filter (fun x => !(x.id == h)),
         invocations := w.invocations ++ [.call c.owner g tm.args] } := by
  have hres2 : resolvesTo
      { w with timers := w.timers.filter (fun x => !(x.id == h)) }
      c.owner c.task g :=
    resolvesTo_of_owners_eq rfl hres
  simp [fireTimer, hfind, hc, runClosure_resolved _ _ _ _ hres2]

/-- C2: with a pending debounce present, a further schedule reuses the
stored coalesced callback unchanged — closure table and counter are
untouched — while requesting a fresh handle and overwriting the entry with
{same callback, new handle}; consequently, starting from `init`, N schedule
calls for one task yield exactly one eventual invocation, carrying the
arguments of the N-th call. -/
theorem schedule_coalesces :
    (∀ (w : World) (obj : Nat) (t : TaskIdentity) (args : List Nat)
       (m : PendingDebounces) (pd : PendingDebounce) (w' : World),
      alookup obj w.registry = some m → alookup t m = some pd →
      debounceTask obj t args w = .ok w' →
      w'.nextClosure = w.nextClosure ∧ w'.closures = w.closures ∧
      w'.nextTimer = w.nextTimer + 1 ∧
      alookup obj w'.registry =
        some (aset t ⟨pd.debouncedTask, w.nextTimer⟩ m)) ∧
    (∀ (t : TaskIdentity) (g : Nat) (a : List Nat) (rest : List (List Nat)),
      resolvesTo init 0 t g →
      run ((a :: rest).map (Op.schedule 0 t)) init =
        midState t rest.length (rest.getLastD a) ∧
      (fireTimer rest.length
        (midState t rest.length (rest.getLastD a))).invocations =
        [.call 0 g (rest.getLastD a)]) := by
  constructor
  · intro w obj t args m pd w' hm ht hok
    obtain ⟨h1, h2, h3⟩ := debounceTask_ok_conditions hok
    rw [debounceTask_eq_ok h1 h2 h3] at hok
    simp only [getOrCreateMap_some hm, getOrCreateClosure_some ht, emberDebounce,
      Except.ok.injEq] at hok
    subst hok
    exact ⟨rfl, rfl, rfl, by simp [alookup_aset_self]⟩
  · intro t g a rest hres
    constructor
    · have h0 : applyOp init (Op.schedule 0 t a) = midState t 0 a := by
        simp [applyOp, schedule_from_init t g a hres]
      calc run ((a :: rest).map (Op.schedule 0 t)) init
          = run (rest.map (Op.schedule 0 t)) (applyOp init (Op.schedule 0 t a)) := rfl
        _ = run (rest.map (Op.schedule 0 t)) (midState t 0 a) := by rw [h0]
        _ = midState t (0 + rest.length) (rest.getLastD a) :=
            run_schedules_from_midState t g hres rest 0 a
        _ = midState t rest.length (rest.getLastD a) := by rw [Nat.zero_add]
    · rw [fireTimer_resolved (midState t rest.length (rest.getLastD a)) rest.length
        ⟨rest.length, 0, 0, rest.getLastD a⟩ ⟨0, t⟩ g
        (by simp [midState, List.find?]) rfl (resolvesTo_of_owners_eq rfl hres)]
      simp [midState]

/-- Witness for C2: from `wPending` (one pending debounce for `fn 7`, handle
0), scheduling again with args [2] keeps closure 0 and stores handle 1; two
schedules from `init` then firing invoke function 7 exactly once with [2]. -/
theorem schedule_coalesces_witness :
    ((midState (.fn 7) 1 [2]).nextClosure = wPending.nextClosure ∧
     (midState (.fn 7) 1 [2]).closures = wPending.closures ∧
     (midState (.fn 7) 1 [2]).nextTimer = wPending.nextTimer + 1 ∧
     alookup 0 (midState (.fn 7) 1 [2]).registry =
       some (aset (TaskIdentity.fn 7) ⟨0, wPending.nextTimer⟩
         ([(TaskIdentity.fn 7, ⟨0, 0⟩)] : PendingDebounces))) ∧
    (run ([[1], [2]].map (Op.schedule 0 (.fn 7))) init = midState (.fn 7) 1 [2] ∧
     (fireTimer 1 (midState (.fn 7) 1 [2])).invocations = [.call 0 7 [2]]) :=
  ⟨schedule_coalesces.1 wPending 0 (.fn 7) [2] [(TaskIdentity.fn 7, ⟨0, 0⟩)] ⟨0, 0⟩
      (midState (.fn 7) 1 [2]) (by decide) (by decide) (by rfl),
   schedule_coalesces.2 (.fn 7) 7 [1] [[2]] (by decide)⟩

/-- A fired coalesced callback touches only the invocation log: registry
and disposable registrations are unchanged (the source's
`delete pendingDebounces[name]` removes no Map entry). -/
theorem runClosure_preserves (c : ClosureData) (args : List Nat) (w : World) :
    (runClosure c args w).registry = w.registry ∧
    (runClosure c args w).disposables = w.disposables := by
  rcases c with ⟨co, ct⟩
  cases ct with
  | name s =>
    rcases hl : alookup s (getOwner w co).methods with _ | pv
    · simp [runClosure, hl]
    · cases pv <;> simp [runClosure, hl]
  | fn f => exact ⟨rfl, rfl⟩
  | other n => exact ⟨rfl, rfl⟩

/-- Firing a timer changes neither the registry nor the registrations. -/
theorem fireTimer_preserves (h : Nat) (w : World) :
    (fireTimer h w).registry = w.registry ∧
    (fireTimer h w).disposables = w.disposables := by
  rcases hf : w.timers.find? (fun tm => tm.id == h) with _ | tm
  · simp [fireTimer, hf]
  · rcases hc : alookup tm.closure w.closures with _ | c
    · simp [fireTimer, hf, hc]
    · have hp := runClosure_preserves c tm.args
        { w with timers := w.timers.filter (fun x => !(x.id == h)) }
      simp only [fireTimer, hf, hc]
      exact hp

/-- The teardown disposable changes neither the registry nor the
registrations. -/
theorem runTeardown_preserves (obj : Nat) (w : World) :
    (runTeardown obj w).registry = w.registry ∧
    (runTeardown obj w).disposables = w.disposables := by
  rcases hm : alookup obj w.registry with _ | m
  · simp [runTeardown, hm]
  · simp only [runTeardown, hm]
    rw [foldl_schedulerCancel]
    exact ⟨rfl, rfl⟩

/-- Inverting the delete phase of `cancelDebounce`. -/
theorem cancelDeletePhase_some {obj : Nat} {t : TaskIdentity} {w : World}
    {cid : Nat} {w₁ : World}
    (h : cancelDeletePhase obj t w = some (cid, w₁)) :
    ∃ m pd, alookup obj w.registry = some m ∧ alookup t m = some pd ∧
      cid = pd.cancelId ∧
      w₁ = { w with registry := aset obj (aerase t m) w.registry } := by
  rcases hm : alookup obj w.registry with _ | m
  · simp [cancelDeletePhase, hm] at h
  · rcases ht : alookup t m with _ | pd
    · simp [cancelDeletePhase, hm, ht] at h
    · simp [cancelDeletePhase, hm, ht] at h
      exact ⟨m, pd, rfl, ht, h.1.symm, h.2.symm⟩

/-- `cancelDebounce` either leaves the state unchanged or erases one entry
of the owner's map and cancels one handle. -/
theorem cancelDebounce_shape (obj : Nat) (t : TaskIdentity) (w : World) :
    cancelDebounce obj t w = w ∨
    ∃ m cid, alookup obj w.registry = some m ∧
      cancelDebounce obj t w =
        schedulerCancel cid { w with registry := aset obj (aerase t m) w.registry } := by
  rcases hp : cancelDeletePhase obj t w with _ | p
  · left
    simp [cancelDebounce, hp]
  · right
    obtain ⟨m, pd, hm, ht, hcid, hw₁⟩ := cancelDeletePhase_some hp
    exact ⟨m, p.1, hm, by simp [cancelDebounce, hp, hw₁]⟩

/-- A successful `debounceTask` overwrites one entry of the (possibly just
created) per-owner map and registers the owner's disposable exactly when the
map was just created. -/
theorem debounceTask_state_shape {obj : Nat} {t : TaskIdentity}
    {args : List Nat} {w w' : World}
    (hok : debounceTask obj t args w = .ok w') :
    ∃ m₀ pd',
      w'.registry = aset obj (aset t pd' m₀) w.registry ∧
      ((alookup obj w.registry = some m₀ ∧ w'.disposables = w.disposables) ∨
       (alookup obj w.registry = none ∧ m₀ = [] ∧
        w'.disposables = w.disposables ++ [obj])) := by
  obtain ⟨h1, h2, h3⟩ := debounceTask_ok_conditions hok
  rw [debounceTask_eq_ok h1 h2 h3] at hok
  rcases hm : alookup obj w.registry with _ | m
  · simp only [getOrCreateMap_none hm,
      getOrCreateClosure_none
        (show alookup t ([] : PendingDebounces) = none from rfl),
      emberDebounce, Except.ok.injEq] at hok
    subst hok
    refine ⟨[], ⟨w.nextClosure, w.nextTimer⟩, ?_, Or.inr ⟨rfl, rfl, rfl⟩⟩
    simp [aset_aset]
  · rcases ht : alookup t m with _ | pd
    · simp only [getOrCreateMap_some hm, getOrCreateClosure_none ht,
        emberDebounce, Except.ok.injEq] at hok
      subst hok
      exact ⟨m, ⟨w.nextClosure, w.nextTimer⟩, rfl, Or.inl ⟨rfl, rfl⟩⟩
    · simp only [getOrCreateMap_some hm, getOrCreateClosure_some ht,
        emberDebounce, Except.ok.injEq] at hok
      subst hok
      exact ⟨m, ⟨pd.debouncedTask, w.nextTimer⟩, rfl, Or.inl ⟨rfl, rfl⟩⟩

/-- Every single operation preserves the uniqueness invariant. -/
theorem keysUnique_applyOp (w : World) (op : Op) (h : keysUnique w) :
    keysUnique (applyOp w op) := by
  obtain ⟨hreg, hinner⟩ := h
  cases op with
  | schedule obj t args =>
    simp only [applyOp]
    rcases hdt : debounceTask obj t args w with e | w'
    · exact ⟨hreg, hinner⟩
    · obtain ⟨m₀, pd', hshape, hcase⟩ := debounceTask_state_shape hdt
      constructor
      · rw [hshape]
        exact aset_keys_nodup hreg
      · intro e he
        rw [hshape] at he
        rcases mem_aset he with rfl | he'
        · have hm₀ : (m₀.map (·.1)).Nodup := by
            rcases hcase with ⟨hm, _⟩ | ⟨_, hm0, _⟩
            · exact hinner _ (alookup_mem hm)
            · subst hm0
              simp
          exact aset_keys_nodup hm₀
        · exact hinner _ he'
  | cancelOp obj t =>
    simp only [applyOp]
    rcases cancelDebounce_shape obj t w with heq | ⟨m, cid, hm, heq⟩
    · rw [heq]
      exact ⟨hreg, hinner⟩
    · rw [heq]
      constructor
      · exact aset_keys_nodup hreg
      · intro e he
        have he2 : e ∈ aset obj (aerase t m) w.registry := he
        rcases mem_aset he2 with rfl | hee
        · exact aerase_keys_nodup (hinner _ (alookup_mem hm))
        · exact hinner _ hee
  | fire h' =>
    have hp := fireTimer_preserves h' w
    simp only [applyOp, keysUnique]
    rw [hp.1]
    exact ⟨hreg, hinner⟩
  | teardown obj =>
    have hp := runTeardown_preserves obj w
    simp only [applyOp, keysUnique]
    rw [hp.1]
    exact ⟨hreg, hinner⟩

/-- Every single operation preserves the registered-once invariant. -/
theorem dispOnce_applyOp (w : World) (op : Op) (h : dispOnce w) :
    dispOnce (applyOp w op) := by
  obtain ⟨hnd, hsome, hmem⟩ := h
  cases op with
  | schedule obj t args =>
    simp only [applyOp]
    rcases hdt : debounceTask obj t args w with e | w'
    · exact ⟨hnd, hsome, hmem⟩
    · obtain ⟨m₀, pd', hshape, hcase⟩ := debounceTask_state_shape hdt
      rcases hcase with ⟨hm, hd⟩ | ⟨hm, hm0, hd⟩
      · refine ⟨by rw [hd]; exact hnd, ?_, ?_⟩
        · intro o ho
          rw [hd] at ho
          rw [hshape]
          exact (alookup_isSome_aset _ _ _ _).2 (Or.inr (hsome o ho))
        · intro e he
          rw [hd]
          have he2 : e ∈ aset obj (aset t pd' m₀) w.registry := by
            rw [hshape] at he
            exact he
          rcases mem_aset he2 with rfl | hee
          · exact hmem (obj, m₀) (alookup_mem hm)
          · exact hmem _ hee
      · have hnotin : obj ∉ w.disposables := by
          intro hin
          have hs := hsome obj hin
          rw [hm] at hs
          simp at hs
        refine ⟨?_, ?_, ?_⟩
        · rw [hd, List.nodup_append]
          refine ⟨hnd, List.nodup_singleton _, ?_⟩
          intro x hx hx'
          rw [List.mem_singleton] at hx'
          subst hx'
          exact hnotin hx
        · intro o ho
          rw [hd, List.mem_append, List.mem_singleton] at ho
          rw [hshape]
          rcases ho with ho | rfl
          · exact (alookup_isSome_aset _ _ _ _).2 (Or.inr (hsome o ho))
          · exact (alookup_isSome_aset _ _ _ _).2 (Or.inl rfl)
        · intro e he
          rw [hd]
          have he2 : e ∈ aset obj (aset t pd' m₀) w.registry := by
            rw [hshape] at he
            exact he
          rw [List.mem_append, List.mem_singleton]
          rcases mem_aset he2 with rfl | hee
          · exact Or.inr rfl
          · exact Or.inl (hmem _ hee)
  | cancelOp obj t =>
    simp only [applyOp]
    rcases cancelDebounce_shape obj t w with heq | ⟨m, cid, hm, heq⟩
    · rw [heq]
      exact ⟨hnd, hsome, hmem⟩
    · rw [heq]
      refine ⟨hnd, ?_, ?_⟩
      · intro o ho
        show (alookup o (aset obj (aerase t m) w.registry)).isSome = true
        exact (alookup_isSome_aset _ _ _ _).2 (Or.inr (hsome o ho))
      · intro e he
        have he2 : e ∈ aset obj (aerase t m) w.registry := he
        rcases mem_aset he2 with rfl | hee
        · exact hmem (obj, m) (alookup_mem hm)
        · exact hmem _ hee
  | fire h' =>
    have hp := fireTimer_preserves h' w
    simp only [applyOp, dispOnce]
    rw [hp.1, hp.2]
    exact ⟨hnd, hsome, hmem⟩
  | teardown obj =>
    have hp := runTeardown_preserves obj w
    simp only [applyOp, dispOnce]
    rw [hp.1, hp.2]
    exact ⟨hnd, hsome, hmem⟩

/-- C8: starting from any state satisfying the uniqueness invariant, any
sequence of schedule, cancel, timer-firing and teardown operations
preserves it: the registry's owner keys and the task-identity keys of every
per-owner map stay pairwise distinct, so at most one pending debounce
exists per (owner, task identity) pair at every reachable state. -/
theorem pendingDebounce_unique (ops : List Op) (w : World)
    (h : keysUnique w) : keysUnique (run ops w) := by
  induction ops generalizing w with
  | nil => exact h
  | cons op rest ih => exact ih (applyOp w op) (keysUnique_applyOp w op h)

/-- Witness for C8: a mixed sequence of schedules, a firing, a cancel and a
teardown from `init` keeps the uniqueness invariant. -/
theorem pendingDebounce_unique_witness :
    keysUnique (run
      [Op.schedule 0 (.fn 7) [1], Op.schedule 0 (.name "logMe") [2],
       Op.fire 0, Op.cancelOp 0 (.name "logMe"), Op.teardown 0] init) :=
  pendingDebounce_unique
    [Op.schedule 0 (.fn 7) [1], Op.schedule 0 (.name "logMe") [2],
     Op.fire 0, Op.cancelOp 0 (.name "logMe"), Op.teardown 0] init (by decide)

/-- C7: the teardown disposable is registered exactly once per owner: a
successful schedule that finds no per-owner map registers it (and creates
the map), a schedule that finds an existing map leaves the registration log
unchanged, cancel never touches the log, and the registered-once invariant
`dispOnce` is preserved by every operation sequence. -/
theorem disposable_registered_once (w : World) :
    (∀ (obj : Nat) (t : TaskIdentity) (args : List Nat) (w' : World),
      alookup obj w.registry = none →
      debounceTask obj t args w = .ok w' →
      w'.disposables = w.disposables ++ [obj] ∧
      (alookup obj w'.registry).isSome = true) ∧
    (∀ (obj : Nat) (t : TaskIdentity) (args : List Nat) (w' : World)
       (m : PendingDebounces),
      alookup obj w.registry = some m →
      debounceTask obj t args w = .ok w' →
      w'.disposables = w.disposables) ∧
    (∀ (obj : Nat) (t : TaskIdentity),
      (cancelDebounce obj t w).disposables = w.disposables) ∧
    (∀ ops : List Op, dispOnce w → dispOnce (run ops w)) := by
  refine ⟨?_, ?_, ?_, ?_⟩
  · intro obj t args w' hm hok
    obtain ⟨m₀, pd', hshape, hcase⟩ := debounceTask_state_shape hok
    rcases hcase with ⟨hm', _⟩ | ⟨_, _, hd⟩
    · rw [hm] at hm'
      exact absurd hm' (by simp)
    · refine ⟨hd, ?_⟩
      rw [hshape]
      exact (alookup_isSome_aset _ _ _ _).2 (Or.inl rfl)
  · intro obj t args w' m hm hok
    obtain ⟨m₀, pd', hshape, hcase⟩ := debounceTask_state_shape hok
    rcases hcase with ⟨_, hd⟩ | ⟨hm', _, _⟩
    · exact hd
    · rw [hm] at hm'
      exact absurd hm' (by simp)
  · intro obj t
    rcases cancelDebounce_shape obj t w with heq | ⟨m, cid, hm, heq⟩
    · rw [heq]
    · rw [heq]
      rfl
  · intro ops
    induction ops generalizing w with
    | nil => exact fun h => h
    | cons op rest ih =>
      intro h
      exact ih (applyOp w op) (dispOnce_applyOp w op h)

/-- Witness for C7: the first schedule from `init` registers owner 0's
disposable once; a reschedule and a cancel leave the log unchanged; the
registered-once invariant holds along a concrete run. -/
theorem disposable_registered_once_witness :
    (wPending.disposables = init.disposables ++ [0] ∧
     (alookup 0 wPending.registry).isSome = true) ∧
    (midState (.fn 7) 1 [2]).disposables = wPending.disposables ∧
    (cancelDebounce 0 (.fn 7) wPending).disposables = wPending.disposables ∧
    dispOnce (run [Op.schedule 0 (.fn 7) [1], Op.schedule 0 (.name "logMe") [2],
      Op.fire 0, Op.cancelOp 0 (.name "logMe"), Op.teardown 0] init) :=
  ⟨(disposable_registered_once init).1 0 (.fn 7) [1] wPending (by decide) (by rfl),
   (disposable_registered_once wPending).2.1 0 (.fn 7) [2] (midState (.fn 7) 1 [2])
     [(TaskIdentity.fn 7, ⟨0, 0⟩)] (by decide) (by rfl),
   (disposable_registered_once wPending).2.2.1 0 (.fn 7),
   (disposable_registered_once init).2.2.2
     [Op.schedule 0 (.fn 7) [1], Op.schedule 0 (.name "logMe") [2],
      Op.fire 0, Op.cancelOp 0 (.name "logMe"), Op.teardown 0] (by decide)⟩
